import Mathlib

/-!
Verification of the art-of-rally leaderboard utilities.

This file gives a shallow embedding, in Lean, of the pure computational core of
the repository (src/http.rs, src/lib.rs, src/main.rs) and proves or refutes the
frozen specification claims about it.  Machine integers (usize) are modelled as
Nat: every quantity involved (ranks, car ids, millisecond times) is far below
2^64 in the source domain and no arithmetic in the modelled code can overflow
or wrap.  Fallible Rust code (Result, panics) is modelled with Except and
Option: a Lean result of none stands for a Rust panic of the embedded code
path.  Rust iteration-order-stable sorts (slice::sort_by_key, sort_by) are
modelled with List.insertionSort, which is stable for the reflexive total
relations used here.
-/

namespace AoR

/-! ## Part 1: the batched fetcher, src/http.rs

The fetcher issues one curl request per URL, correlated by an index token, and
writes each completion into its own slot of a preallocated response vector.
We abstract the network by the per-URL outcome the environment produces, and
abstract scheduling by the order in which completions arrive. -/

/-- Abstract outcome of one URL of a batch, as seen by download_all in
src/http.rs: the URL can be rejected by the client when the handle is built
(request.url(url) fails), the transfer can fail, the body can fail to decode
as JSON, or a payload is decoded. -/
inductive FetchOutcome (T : Type) where
  | urlError : FetchOutcome T
  | transportError : String → FetchOutcome T
  | decodeError : FetchOutcome T
  | success : T → FetchOutcome T

/-- True when the outcome is a malformed-URL rejection. -/
def FetchOutcome.isUrlError {T : Type} : FetchOutcome T → Bool
  | .urlError => true
  | _ => false

/-- The value download_all stores in the slot of a completed request
(src/http.rs lines 107-134): a transfer error is stored as Some(Err(e)), a
body that does not decode leaves the slot None, a decoded payload is stored
as Some(Ok(t)).  urlError never reaches this point (its request is never
added to the multi handle). -/
def slotResult {T : Type} : FetchOutcome T → Option (Except String T)
  | .urlError => none
  | .transportError e => some (Except.error e)
  | .decodeError => none
  | .success t => some (Except.ok t)

/-- The write the completion handler performs for one arrived message, by the
outcome of the transfer (src/http.rs lines 111-133).  A urlError request was
never added to the multi handle, so no message for it can arrive and that
case leaves the responses unchanged. -/
def writeSlot {T : Type} (responses : List (Option (Except String T))) (token : Nat) :
    FetchOutcome T → List (Option (Except String T))
  | .urlError => responses
  | .transportError e => responses.set token (some (Except.error e))
  | .decodeError => responses.set token none
  | .success t => responses.set token (some (Except.ok t))

/-- One iteration of the completion-message loop of download_all: the message
carries its token, and the handler writes the slot of that token.  The
outcomes list is the environment: outcome of token i is outcomes[i]. -/
def applyCompletion {T : Type} (outcomes : List (FetchOutcome T))
    (responses : List (Option (Except String T))) (token : Nat) :
    List (Option (Except String T)) :=
  writeSlot responses token (outcomes.getD token FetchOutcome.urlError)

/-- download_all of src/http.rs (cache disabled), over an abstract
environment.  Building the handles (lines 82-100) maps download over the
URLs and collects into Result: the first malformed URL aborts the whole
batch through the question-mark on line 100.  Otherwise responses starts as
N times None (lines 75-78) and each completion, in arrival order, writes its
own slot (lines 102-135). -/
def download_all {T : Type} (outcomes : List (FetchOutcome T)) (arrival : List Nat) :
    Except String (List (Option (Except String T))) :=
  if outcomes.any FetchOutcome.isUrlError then Except.error "invalid url"
  else Except.ok (arrival.foldl (applyCompletion outcomes) (List.replicate outcomes.length none))

theorem writeSlot_length {T : Type} (responses : List (Option (Except String T)))
    (token : Nat) (o : FetchOutcome T) :
    (writeSlot responses token o).length = responses.length := by
  cases o <;> simp [writeSlot]

theorem applyCompletion_length {T : Type} (outcomes : List (FetchOutcome T)) (responses) (token) :
    (applyCompletion outcomes responses token).length = responses.length :=
  writeSlot_length responses token _

theorem foldl_applyCompletion_length {T : Type} (outcomes : List (FetchOutcome T)) :
    ∀ (arrival : List Nat) (init : List (Option (Except String T))),
      (arrival.foldl (applyCompletion outcomes) init).length = init.length := by
  intro arrival
  induction arrival with
  | nil => intro init; rfl
  | cons t rest ih =>
    intro init
    simpa [List.foldl_cons, applyCompletion_length] using ih (applyCompletion outcomes init t)

theorem writeSlot_getD_same {T : Type} (init : List (Option (Except String T)))
    (i : Nat) (hi : i < init.length) (o : FetchOutcome T) (hok : o.isUrlError = false) :
    (writeSlot init i o).getD i none = slotResult o := by
  cases o with
  | urlError => simp [FetchOutcome.isUrlError] at hok
  | transportError e =>
    rw [writeSlot, List.getD_eq_getElem _ _ (by simpa using hi)]
    simp [slotResult]
  | decodeError =>
    rw [writeSlot, List.getD_eq_getElem _ _ (by simpa using hi)]
    simp [slotResult]
  | success t =>
    rw [writeSlot, List.getD_eq_getElem _ _ (by simpa using hi)]
    simp [slotResult]

theorem writeSlot_getD_other {T : Type} (init : List (Option (Except String T)))
    (t i : Nat) (hne : t ≠ i) (hi : i < init.length) (o : FetchOutcome T) :
    (writeSlot init t o).getD i none = init.getD i none := by
  have hset : ∀ v, (init.set t v).getD i none = init.getD i none := by
    intro v
    rw [List.getD_eq_getElem _ _ (by simpa using hi), List.getD_eq_getElem _ _ hi]
    simp [List.getElem_set, hne]
  cases o with
  | urlError => rfl
  | transportError e => exact hset _
  | decodeError => exact hset _
  | success t => exact hset _

theorem foldl_applyCompletion_getD {T : Type} (outcomes : List (FetchOutcome T)) :
    ∀ (arrival : List Nat) (init : List (Option (Except String T))) (i : Nat), i < init.length →
      (arrival.foldl (applyCompletion outcomes) init).getD i none =
        if i ∈ arrival ∧ (outcomes.getD i FetchOutcome.urlError).isUrlError = false
        then slotResult (outcomes.getD i FetchOutcome.urlError)
        else init.getD i none := by
  intro arrival
  induction arrival with
  | nil => intro init i hi; simp
  | cons t rest ih =>
    intro init i hi
    rw [List.foldl_cons, ih (applyCompletion outcomes init t) i (by rw [applyCompletion_length]; exact hi)]
    by_cases hmem : i ∈ rest ∧ (outcomes.getD i FetchOutcome.urlError).isUrlError = false
    · rw [if_pos hmem, if_pos ⟨List.mem_cons_of_mem t hmem.1, hmem.2⟩]
    · rw [if_neg hmem]
      by_cases ht : t = i
      · subst ht
        by_cases hok : (outcomes.getD t FetchOutcome.urlError).isUrlError = false
        · rw [applyCompletion, writeSlot_getD_same init t hi _ hok,
            if_pos ⟨List.mem_cons_self t rest, hok⟩]
        · have hurl : outcomes.getD t FetchOutcome.urlError = FetchOutcome.urlError := by
            revert hok
            cases outcomes.getD t FetchOutcome.urlError <;> simp [FetchOutcome.isUrlError]
          rw [if_neg (fun hc => hok hc.2), applyCompletion, hurl, writeSlot]
      · rw [applyCompletion, writeSlot_getD_other init t i ht hi]
        rw [if_neg]
        intro hc
        rcases hc with ⟨hc1, hc2⟩
        rcases List.mem_cons.mp hc1 with h1 | h1
        · exact ht h1.symm
        · exact hmem ⟨h1, hc2⟩

/-- C3 counterexample: the claim asserts a malformed URL is confined to its
own slot and never fails the whole batch, but download_all aborts the whole
batch on the first malformed URL (the question-mark on src/http.rs line 100):
at a one-URL batch whose URL is malformed, the whole result is an error, not
a one-slot list. -/
theorem c3_counterexample :
    download_all [(FetchOutcome.urlError : FetchOutcome Nat)] [0] = Except.error "invalid url" := rfl

/-- C3 (amended): for every batch containing no malformed URL, download_all
returns exactly N results in input order regardless of completion arrival
order: a transport failure becomes the error value of its slot, an undecodable
body leaves that slot absent, and every other slot holds its decoded payload.
A malformed URL, however, fails the whole batch. -/
theorem c3_amended {T : Type} (outcomes : List (FetchOutcome T)) (arrival : List Nat)
    (hurl : ∀ o ∈ outcomes, o.isUrlError = false)
    (harr : arrival.Perm (List.range outcomes.length)) :
    download_all outcomes arrival = Except.ok (outcomes.map slotResult) := by
  have hany : outcomes.any FetchOutcome.isUrlError = false := by
    rw [List.any_eq_false]
    intro o ho
    simp [hurl o ho]
  unfold download_all
  rw [hany]
  simp only [Bool.false_eq_true, if_false]
  congr 1
  apply List.ext_getElem
  · rw [foldl_applyCompletion_length]
    simp
  · intro i h1 h2
    have hn : i < outcomes.length := by
      rw [foldl_applyCompletion_length] at h1
      simpa using h1
    have hgetd := foldl_applyCompletion_getD outcomes arrival (List.replicate outcomes.length none) i (by simpa using hn)
    have hmem : i ∈ arrival := harr.mem_iff.mpr (List.mem_range.mpr hn)
    have hok : (outcomes.getD i FetchOutcome.urlError).isUrlError = false := by
      rw [List.getD_eq_getElem _ _ hn]
      exact hurl _ (List.getElem_mem hn)
    rw [if_pos ⟨hmem, hok⟩] at hgetd
    rw [← List.getD_eq_getElem _ none h1, hgetd, List.getD_eq_getElem _ _ hn]
    simp

/-- C3 witness: a three-URL batch with a success, a transport failure and a
decode failure, completing out of order, yields exactly the three slots in
input order. -/
theorem c3_witness :
    (∀ o ∈ [FetchOutcome.success 7, FetchOutcome.transportError "timeout",
        (FetchOutcome.decodeError : FetchOutcome Nat)], o.isUrlError = false) ∧
    ([2, 0, 1] : List Nat).Perm (List.range 3) ∧
    download_all [FetchOutcome.success 7, FetchOutcome.transportError "timeout",
        (FetchOutcome.decodeError : FetchOutcome Nat)] [2, 0, 1] =
      Except.ok [some (Except.ok 7), some (Except.error "timeout"), none] :=
  ⟨by decide, by decide,
    (c3_amended _ _ (by decide) (by decide)).trans rfl⟩

/-! ## Part 2: identity resolution and result assembly, src/lib.rs

get_rally_results receives, from the fetcher, one leaderboard result per
stage and one world-rank result per (user, stage).  src/lib.rs consumes
these as one Result per slot (leaderboard.unwrap() on line 135, and the
per-user chunks of ranks read by flat_map on lines 145-147), so the model
takes one Except per slot. -/

/-- One anonymous row of a friends-filtered leaderboard response (the fields
of the API LeaderboardEntry used by src/lib.rs: rank is the local rank,
score the elapsed milliseconds, car_id the vehicle). -/
structure Entry where
  rank : Nat
  score : Nat
  car_id : Nat
deriving DecidableEq

/-- A decoded leaderboard response body. -/
structure Response where
  leaderboard : List Entry
deriving DecidableEq

/-- A decoded world-rank response body (the Rank struct local to
get_rally_results; the unused result field is omitted). -/
structure RankResp where
  rank : Nat
deriving DecidableEq

/-- StageResult of src/lib.rs. -/
structure StageResult where
  car : Nat
  time_ms : Nat
  local_rank : Nat
  world_rank : Option Nat
deriving DecidableEq

/-- DriverResult of src/lib.rs. -/
structure DriverResult where
  name : String
  stages : List (Option StageResult)
deriving DecidableEq

/-- RallyResults of src/lib.rs.  The stages field (the list of stage
descriptors, copied verbatim from the input) is presentational and omitted;
stages are identified by their index throughout. -/
structure RallyResults where
  driver_results : List DriverResult
  stage_results : List (List (String × StageResult))
deriving DecidableEq

/-- Line 143: entries.sort_by_key(|entry| entry.rank) — a stable ascending
sort of the anonymous rows by local rank. -/
def sortEntries (entries : List Entry) : List Entry :=
  List.insertionSort (fun a b => a.rank ≤ b.rank) entries

/-- Lines 145-150: for one stage, take the per-user world-rank results (in
configured user order), keep only the successful ones (flat_map over Result
yields only Ok values), zip the survivors with the user names, and sort the
(rank, name) pairs ascending by rank.  Note the zip happens after the
filtering, so a failed rank query shifts the names of all later users. -/
def sortedWorldRanks (stageRanks : List (Except String RankResp)) (userNames : List String) :
    List (Nat × String) :=
  List.insertionSort (fun a b => a.1 ≤ b.1)
    (((stageRanks.filterMap Except.toOption).zip userNames).map (fun p => (p.1.rank, p.2)))

/-- The StageResult built for one paired entry (lines 157-162). -/
def mkStageResult (e : Entry) (worldRank : Nat) : StageResult :=
  ⟨e.car_id, e.score, e.rank, some worldRank⟩

/-- Lines 152-163: walk the sorted entries and draw the next sorted
(world rank, name) pair for each; sorted_world_ranks.next().unwrap() panics
(modelled none) when the entries outnumber the successful world ranks. -/
def pairEntries : List Entry → List (Nat × String) → Option (List (String × StageResult))
  | [], _ => some []
  | _ :: _, [] => none
  | e :: es, w :: ws =>
    (pairEntries es ws).map (fun rest => (w.2, mkStageResult e w.1) :: rest)

/-- The per-stage identity resolution of get_rally_results (lines 143-163):
sort entries by local rank, sort the successfully ranked users by world
rank, pair positionally in that order. -/
def resolveStage (entries : List Entry) (stageRanks : List (Except String RankResp))
    (userNames : List String) : Option (List (String × StageResult)) :=
  pairEntries (sortEntries entries) (sortedWorldRanks stageRanks userNames)

/-- Byte-lexicographic string order, the Ord used by the BTreeMap keyed by
driver name (String in Rust; scalar-value order and UTF-8 byte order
coincide). -/
def strLtGo : List Char → List Char → Bool
  | [], [] => false
  | [], _ :: _ => true
  | _ :: _, [] => false
  | c :: cs, d :: ds =>
    if c.val.toNat < d.val.toNat then true
    else if d.val.toNat < c.val.toNat then false
    else strLtGo cs ds

/-- Boolean string comparison for the driver-name BTreeMap. -/
def strLt (a b : String) : Bool :=
  strLtGo a.data b.data

/-- driver_results.entry(name).or_insert_with(vec![None; n])[stage_idx] =
Some r (lines 154-163), on a key-sorted association list modelling the
BTreeMap: update the existing vector of the driver, or insert a fresh
all-None vector with slot i set, keeping keys sorted. -/
def mapSet (m : List (String × List (Option StageResult))) (name : String)
    (numStages i : Nat) (r : StageResult) : List (String × List (Option StageResult)) :=
  match m with
  | [] => [(name, (List.replicate numStages none).set i (some r))]
  | (k, v) :: rest =>
    if name = k then (k, v.set i (some r)) :: rest
    else if strLt name k then
      (name, (List.replicate numStages none).set i (some r)) :: (k, v) :: rest
    else (k, v) :: mapSet rest name numStages i r

/-- Structural helper for chunks_exact: fuel bounds the recursion by the
length of the input. -/
def chunksExactGo {A : Type} (n : Nat) : Nat → List A → List (List A)
  | 0, _ => []
  | fuel + 1, l =>
    if 0 < n ∧ n ≤ l.length then l.take n :: chunksExactGo n fuel (l.drop n)
    else []

/-- ranks.chunks_exact(leaderboards.len()) of line 131: full chunks of n
consecutive elements, any shorter remainder dropped. -/
def chunksExact {A : Type} (n : Nat) (l : List A) : List (List A) :=
  chunksExactGo n l.length l

/-- The stage loop of get_rally_results (lines 134-164): for each stage, in
order, unwrap the leaderboard result (a failed download panics, modelled
none), resolve the stage, and fold the resolved (name, result) pairs into
the driver map.  worldRankByUser.get(stage_idx).unwrap() on line 147 always
succeeds because every chunk produced by chunks_exact has exactly numStages
elements. -/
def stageLoop (worldRankByUser : List (List (Except String RankResp)))
    (userNames : List String) (numStages : Nat) :
    List (Except String Response) → Nat → List (String × List (Option StageResult)) →
      Option (List (String × List (Option StageResult)))
  | [], _, m => some m
  | lb :: rest, i, m =>
    match lb with
    | Except.error _ => none
    | Except.ok resp =>
      match resolveStage resp.leaderboard
          (worldRankByUser.map (fun c => c.getD i (Except.error "short chunk"))) userNames with
      | none => none
      | some assigns =>
        stageLoop worldRankByUser userNames numStages rest (i + 1)
          (assigns.foldl (fun acc p => mapSet acc p.1 numStages i p.2) m)

/-- get_rally_results of src/lib.rs (lines 80-187), from the point where the
fetcher results are in hand: build the per-user rank chunks, run the stage
loop, then read the driver map off into driver_results (BTreeMap iteration
is ascending by name) and build stage_results: per stage, the (name, result)
pairs of every driver with a result on that stage, sorted ascending by
time_ms (lines 166-177).  A none models a panic of the original. -/
def get_rally_results (leaderboardResults : List (Except String Response))
    (ranks : List (Except String RankResp)) (userNames : List String) :
    Option RallyResults :=
  match stageLoop (chunksExact leaderboardResults.length ranks) userNames
      leaderboardResults.length leaderboardResults 0 [] with
  | none => none
  | some m =>
    some ⟨m.map (fun p => ⟨p.1, p.2⟩),
      (List.range leaderboardResults.length).map (fun i =>
        List.insertionSort (fun a b => a.2.time_ms ≤ b.2.time_ms)
          (m.filterMap (fun p => (p.2.getD i none).map (fun r => (p.1, r)))))⟩

/-- Claim-side pairing population for C1 and C6, written from the
specification text: the configured drivers that have a world rank — the
(rank, name) pairs where names are attached to their own rank result before
any failed result is discarded — sorted ascending by world rank. -/
def rankedDrivers (stageRanks : List (Except String RankResp)) (userNames : List String) :
    List (Nat × String) :=
  List.insertionSort (fun a b => a.1 ≤ b.1)
    ((stageRanks.zip userNames).filterMap
      (fun p => (Except.toOption p.1).map (fun r => (r.rank, p.2))))

/-- When every rank query of a stage succeeded, filtering before zipping
(what the code does) agrees with zipping before filtering (what the
specification describes): the name alignment is unharmed. -/
theorem filterZip_eq_zipFilter (stageRanks : List (Except String RankResp)) :
    ∀ userNames : List String,
      (∀ r ∈ stageRanks, (Except.toOption r).isSome = true) →
      ((stageRanks.filterMap Except.toOption).zip userNames).map (fun p => (p.1.rank, p.2)) =
        (stageRanks.zip userNames).filterMap
          (fun p => (Except.toOption p.1).map (fun r => (r.rank, p.2))) := by
  induction stageRanks with
  | nil => intro userNames hok; rfl
  | cons r rest ih =>
    intro userNames hok
    have hr := hok r (by simp)
    cases userNames with
    | nil =>
      cases hv : Except.toOption r with
      | none => rw [hv] at hr; simp at hr
      | some v => simp [List.filterMap_cons, hv]
    | cons n ns =>
      cases hv : Except.toOption r with
      | none => rw [hv] at hr; simp at hr
      | some v =>
        have := ih ns (fun x hx => hok x (by simp [hx]))
        simp [List.filterMap_cons, hv, this]

/-- With all ranks present, the sorted world-rank list of the code equals the
claim-side ranked-driver list. -/
theorem sortedWorldRanks_eq_rankedDrivers (stageRanks : List (Except String RankResp))
    (userNames : List String)
    (hok : ∀ r ∈ stageRanks, (Except.toOption r).isSome = true) :
    sortedWorldRanks stageRanks userNames = rankedDrivers stageRanks userNames := by
  unfold sortedWorldRanks rankedDrivers
  rw [filterZip_eq_zipFilter stageRanks userNames hok]

/-- pairEntries consumes exactly the entries when enough ranked drivers are
available, pairing them positionally. -/
theorem pairEntries_eq_zipWith :
    ∀ (es : List Entry) (ws : List (Nat × String)), es.length ≤ ws.length →
      pairEntries es ws = some (List.zipWith (fun w e => (w.2, mkStageResult e w.1)) ws es) := by
  intro es
  induction es with
  | nil => intro ws h; cases ws <;> rfl
  | cons e rest ih =>
    intro ws h
    cases ws with
    | nil => simp at h
    | cons w wrest =>
      have := ih wrest (by simpa using h)
      simp [pairEntries, this]

/-- Length of the successful-rank list when every rank succeeded. -/
theorem filterMap_toOption_length (stageRanks : List (Except String RankResp))
    (hok : ∀ r ∈ stageRanks, (Except.toOption r).isSome = true) :
    (stageRanks.filterMap Except.toOption).length = stageRanks.length := by
  induction stageRanks with
  | nil => rfl
  | cons r rest ih =>
    have hr := hok r (by simp)
    cases hv : Except.toOption r with
    | none => rw [hv] at hr; simp at hr
    | some v =>
      simp [List.filterMap_cons, hv, ih (fun x hx => hok x (by simp [hx]))]

/-- C1 counterexample: the claim states the i-th best-world-rank driver is
always assigned the i-th best-local-rank entry.  With two configured drivers
alice and bob, where the world-rank query of alice failed and bob holds world
rank 5, and a single anonymous entry, the only driver with a world rank is
bob, so the claimed pairing gives the entry to bob — but the code zips the
names after dropping the failed query, so it assigns the entry to alice. -/
theorem c1_counterexample :
    resolveStage [⟨1, 100, 0⟩] [Except.error "rank query failed", Except.ok ⟨5⟩]
        ["alice", "bob"] ≠
      some (List.zipWith (fun w e => (w.2, mkStageResult e w.1))
        (rankedDrivers [Except.error "rank query failed", Except.ok ⟨5⟩] ["alice", "bob"])
        (sortEntries [⟨1, 100, 0⟩])) := by decide

/-- C1 (amended): provided every configured driver has a successful world
rank for the stage, and there are at least as many configured drivers as
anonymous entries, identity resolution pairs positionally: the i-th driver
of the world-rank-ascending ordering is assigned the i-th entry of the
local-rank-ascending ordering. -/
theorem c1_amended (entries : List Entry) (stageRanks : List (Except String RankResp))
    (userNames : List String)
    (hok : ∀ r ∈ stageRanks, (Except.toOption r).isSome = true)
    (hnames : stageRanks.length ≤ userNames.length)
    (hentries : entries.length ≤ stageRanks.length) :
    resolveStage entries stageRanks userNames =
      some (List.zipWith (fun w e => (w.2, mkStageResult e w.1))
        (rankedDrivers stageRanks userNames) (sortEntries entries)) := by
  unfold resolveStage
  rw [sortedWorldRanks_eq_rankedDrivers stageRanks userNames hok]
  apply pairEntries_eq_zipWith
  unfold rankedDrivers sortEntries
  rw [List.length_insertionSort, List.length_insertionSort,
    ← filterZip_eq_zipFilter stageRanks userNames hok,
    List.length_map, List.length_zip, filterMap_toOption_length stageRanks hok]
  omega

/-- C1 witness: the specification example — three drivers with world ranks
3, 1, 2 and three entries with local ranks 1, 2, 3; the world-rank-1 driver
b receives local rank 1, c receives local rank 2, a receives local rank 3. -/
theorem c1_witness :
    (∀ r ∈ [Except.ok ⟨3⟩, Except.ok ⟨1⟩, (Except.ok ⟨2⟩ : Except String RankResp)],
        (Except.toOption r).isSome = true) ∧
    resolveStage [⟨1, 100, 0⟩, ⟨2, 150, 0⟩, ⟨3, 200, 0⟩]
        [Except.ok ⟨3⟩, Except.ok ⟨1⟩, Except.ok ⟨2⟩] ["a", "b", "c"] =
      some (List.zipWith (fun w e => (w.2, mkStageResult e w.1))
        (rankedDrivers [Except.ok ⟨3⟩, Except.ok ⟨1⟩, Except.ok ⟨2⟩] ["a", "b", "c"])
        (sortEntries [⟨1, 100, 0⟩, ⟨2, 150, 0⟩, ⟨3, 200, 0⟩])) :=
  ⟨by decide, c1_amended _ _ _ (by decide) (by decide) (by decide)⟩

/-- C6: the code evaluated at the failing input.  Drivers alice and bob, the
rank query of alice failed, bob holds world rank 1 and owns the single
anonymous entry; the code resolves the stage and attributes the entry to
alice — a driver other than the one positional pairing over
successfully-ranked drivers dictates (bob). -/
theorem c6_failing :
    resolveStage [⟨2, 180, 4⟩] [Except.error "transfer failed", Except.ok ⟨1⟩]
        ["alice", "bob"] = some [("alice", ⟨4, 180, 2, some 1⟩)] ∧
    (rankedDrivers [Except.error "transfer failed", Except.ok ⟨1⟩]
        ["alice", "bob"]).map Prod.snd = ["bob"] := by decide

/-- C7 counterexample: the claim states that with orderings of different
lengths the pairing stops at the shorter length and the resolver returns
normally.  With two entries but only one successful world rank, the code
calls next().unwrap() on an exhausted iterator and panics (modelled none)
instead of returning the one-pair result. -/
theorem c7_counterexample :
    resolveStage [⟨1, 100, 0⟩, ⟨2, 150, 0⟩] [Except.ok ⟨1⟩] ["a"] = none := by decide

/-- C7 (amended): when the sorted world-rank ordering is at least as long as
the sorted entry ordering, pairing stops at the shorter (entry) length and
the resolver returns normally, the excess world ranks left unpaired.  When
the entry ordering is the longer one, the resolver panics. -/
theorem c7_amended (entries : List Entry) (stageRanks : List (Except String RankResp))
    (userNames : List String)
    (h : entries.length ≤ (sortedWorldRanks stageRanks userNames).length) :
    ∃ l, resolveStage entries stageRanks userNames = some l ∧ l.length = entries.length := by
  unfold resolveStage
  rw [pairEntries_eq_zipWith (sortEntries entries) (sortedWorldRanks stageRanks userNames)
    (by unfold sortEntries; rw [List.length_insertionSort]; exact h)]
  refine ⟨_, rfl, ?_⟩
  unfold sortEntries
  rw [List.length_zipWith, List.length_insertionSort]
  omega

/-- C7 witness: one entry, two successful world ranks — the resolver returns
a single pair and the excess world rank is unpaired. -/
theorem c7_witness :
    ([(⟨1, 100, 0⟩ : Entry)].length ≤
      (sortedWorldRanks [Except.ok ⟨1⟩, Except.ok ⟨2⟩] ["a", "b"]).length) ∧
    (∃ l, resolveStage [⟨1, 100, 0⟩] [Except.ok ⟨1⟩, Except.ok ⟨2⟩] ["a", "b"] = some l ∧
      l.length = [(⟨1, 100, 0⟩ : Entry)].length) :=
  ⟨by decide, c7_amended _ _ _ (by decide)⟩

/-- C5: the code evaluated at the failing input.  A cycle with one stage
whose leaderboard request failed: get_rally_results unwraps the failed
download on src/lib.rs line 135 and panics (modelled none) instead of
treating the stage as contributing no outcomes. -/
theorem c5_failing :
    get_rally_results [Except.error "connect timeout"] [] [] = none := rfl

/-- C10: in every RallyResults returned by get_rally_results, stage_results
at index i holds exactly one (driver, outcome) pair for each driver of
driver_results whose stage-i outcome is present — as a multiset equality
with the list of those pairs — and is sorted ascending by time_ms. -/
theorem c10_invariant (leaderboardResults : List (Except String Response))
    (ranks : List (Except String RankResp)) (userNames : List String)
    (res : RallyResults) (h : get_rally_results leaderboardResults ranks userNames = some res)
    (i : Nat) (hi : i < res.stage_results.length) :
    (res.stage_results.get ⟨i, hi⟩).Perm
      (res.driver_results.filterMap
        (fun d => (d.stages.getD i none).map (fun r => (d.name, r)))) ∧
    (res.stage_results.get ⟨i, hi⟩).Pairwise (fun a b => a.2.time_ms ≤ b.2.time_ms) := by
  unfold get_rally_results at h
  cases hm : stageLoop (chunksExact leaderboardResults.length ranks) userNames
      leaderboardResults.length leaderboardResults 0 [] with
  | none => rw [hm] at h; exact absurd h (by simp)
  | some m =>
    rw [hm] at h
    have hres := (Option.some.inj h).symm
    subst hres
    have hget : ∀ hj, ((List.range leaderboardResults.length).map (fun j =>
        List.insertionSort (fun a b => a.2.time_ms ≤ b.2.time_ms)
          (m.filterMap (fun p => (p.2.getD j none).map (fun r => (p.1, r)))))).get ⟨i, hj⟩ =
        List.insertionSort (fun a b => a.2.time_ms ≤ b.2.time_ms)
          (m.filterMap (fun p => (p.2.getD i none).map (fun r => (p.1, r)))) := by
      intro hj
      simp
    rw [hget]
    have hmap : (m.map (fun p => (⟨p.1, p.2⟩ : DriverResult))).filterMap
        (fun d => (d.stages.getD i none).map (fun r => (d.name, r))) =
        m.filterMap (fun p => (p.2.getD i none).map (fun r => (p.1, r))) := by
      rw [List.filterMap_map]
      rfl
    constructor
    · rw [hmap]
      exact List.perm_insertionSort _ _
    · haveI : IsTotal (String × StageResult) (fun a b => a.2.time_ms ≤ b.2.time_ms) :=
        ⟨fun a b => Nat.le_total _ _⟩
      haveI : IsTrans (String × StageResult) (fun a b => a.2.time_ms ≤ b.2.time_ms) :=
        ⟨fun a b c hab hbc => Nat.le_trans hab hbc⟩
      exact List.sorted_insertionSort _ _

/-- C10 witness: a one-stage, one-driver cycle whose assembled results
satisfy the invariant. -/
theorem c10_witness :
    get_rally_results [Except.ok ⟨[⟨1, 100, 3⟩]⟩] [Except.ok ⟨7⟩] ["ann"] =
      some ⟨[⟨"ann", [some ⟨3, 100, 1, some 7⟩]⟩], [[("ann", ⟨3, 100, 1, some 7⟩)]]⟩ ∧
    (((⟨[⟨"ann", [some ⟨3, 100, 1, some 7⟩]⟩], [[("ann", ⟨3, 100, 1, some 7⟩)]]⟩ :
        RallyResults).stage_results.get ⟨0, by decide⟩).Perm
      ((⟨[⟨"ann", [some ⟨3, 100, 1, some 7⟩]⟩], [[("ann", ⟨3, 100, 1, some 7⟩)]]⟩ :
        RallyResults).driver_results.filterMap
          (fun d => (d.stages.getD 0 none).map (fun r => (d.name, r)))) ∧
    ((⟨[⟨"ann", [some ⟨3, 100, 1, some 7⟩]⟩], [[("ann", ⟨3, 100, 1, some 7⟩)]]⟩ :
        RallyResults).stage_results.get ⟨0, by decide⟩).Pairwise
      (fun a b => a.2.time_ms ≤ b.2.time_ms)) :=
  ⟨by decide,
    c10_invariant [Except.ok ⟨[⟨1, 100, 3⟩]⟩] [Except.ok ⟨7⟩] ["ann"]
      ⟨[⟨"ann", [some ⟨3, 100, 1, some 7⟩]⟩], [[("ann", ⟨3, 100, 1, some 7⟩)]]⟩
      (by decide) 0 (by decide)⟩

/-! ## Part 3: the time classifier, split_times of src/lib.rs

The source struct named PartialTime is rendered here as PartTime. -/

/-- FullTime of src/lib.rs: a driver with an outcome on every stage. -/
structure FullTime where
  total_time : Nat
  user_name : String
  stage_times : List Nat
  local_rank : List Nat
  world_rank : List (Option Nat)
  cars : List Nat
deriving DecidableEq

/-- The PartialTime struct of src/lib.rs: a driver with outcomes on a proper
subset of the stages.  Note world_rank is flattened (one element per
finished stage), unlike the other stage-indexed vectors. -/
structure PartTime where
  finished_stages : Nat
  total_time : Nat
  user_name : String
  stage_times : List (Option Nat)
  local_rank : List (Option Nat)
  world_rank : List (Option Nat)
  cars : List (Option Nat)
deriving DecidableEq

/-- driver.stages.iter().filter(|o| o.is_some()).count() (line 232). -/
def finishedCount (d : DriverResult) : Nat :=
  (d.stages.filter (fun o => o.isSome)).length

/-- times.clone().flatten().sum() (line 231): the sum of the present stage
times. -/
def totalTime (d : DriverResult) : Nat :=
  (d.stages.filterMap (fun o => o.map StageResult.time_ms)).sum

/-- The FullTime built on lines 235-242.  The source unwraps each per-stage
option; the is_full branch guarantees presence, so the getD defaults are
never read. -/
def mkFullTime (d : DriverResult) : FullTime :=
  ⟨totalTime d, d.name,
    d.stages.map (fun o => (o.map StageResult.time_ms).getD 0),
    d.stages.map (fun o => (o.map StageResult.local_rank).getD 0),
    d.stages.map (fun o => (o.map StageResult.world_rank).getD none),
    d.stages.map (fun o => (o.map StageResult.car).getD 0)⟩

/-- The PartialTime built on lines 244-252; world_rank.flatten() keeps, for
each finished stage, its optional world rank. -/
def mkPartTime (d : DriverResult) : PartTime :=
  ⟨finishedCount d, totalTime d, d.name,
    d.stages.map (fun o => o.map StageResult.time_ms),
    d.stages.map (fun o => o.map StageResult.local_rank),
    (d.stages.map (fun o => o.map StageResult.world_rank)).filterMap id,
    d.stages.map (fun o => o.map StageResult.car)⟩

/-- The driver loop of split_times (lines 214-254): each driver goes to the
full list when every one of its stages has an outcome and to the partial
list otherwise, preserving driver order. -/
def splitLoop : List DriverResult → List FullTime × List PartTime
  | [] => ([], [])
  | d :: rest =>
    let fp := splitLoop rest
    if finishedCount d = d.stages.length then (mkFullTime d :: fp.1, fp.2)
    else (fp.1, mkPartTime d :: fp.2)

/-- split_times of src/lib.rs (lines 210-263): split the drivers, then sort
the full times ascending by total time (stable), and the partial times by
finished stages descending then total time ascending (stable). -/
def split_times (rally : RallyResults) : List FullTime × List PartTime :=
  let fp := splitLoop rally.driver_results
  (List.insertionSort (fun a b => a.total_time ≤ b.total_time) fp.1,
    List.insertionSort
      (fun a b => b.finished_stages < a.finished_stages ∨
        (a.finished_stages = b.finished_stages ∧ a.total_time ≤ b.total_time)) fp.2)

theorem splitLoop_mem_full :
    ∀ (drivers : List DriverResult) (d : DriverResult), d ∈ drivers →
      finishedCount d = d.stages.length → mkFullTime d ∈ (splitLoop drivers).1 := by
  intro drivers
  induction drivers with
  | nil => intro d hd; simp at hd
  | cons x rest ih =>
    intro d hd hfull
    rcases List.mem_cons.mp hd with rfl | hd2
    · simp [splitLoop, hfull]
    · by_cases hx : finishedCount x = x.stages.length <;>
        simp [splitLoop, hx, ih d hd2 hfull]

theorem splitLoop_mem_part :
    ∀ (drivers : List DriverResult) (d : DriverResult), d ∈ drivers →
      finishedCount d ≠ d.stages.length → mkPartTime d ∈ (splitLoop drivers).2 := by
  intro drivers
  induction drivers with
  | nil => intro d hd; simp at hd
  | cons x rest ih =>
    intro d hd hne
    rcases List.mem_cons.mp hd with rfl | hd2
    · simp [splitLoop, hne]
    · by_cases hx : finishedCount x = x.stages.length <;>
        simp [splitLoop, hx, ih d hd2 hne]

theorem all_some_of_finishedCount (d : DriverResult)
    (hfull : finishedCount d = d.stages.length) : ∀ o ∈ d.stages, o.isSome = true := by
  unfold finishedCount at hfull
  rw [← List.countP_eq_length_filter, List.countP_eq_length] at hfull
  exact hfull

theorem filterMap_eq_map_of_all_some (l : List (Option StageResult))
    (hall : ∀ o ∈ l, o.isSome = true) :
    l.filterMap (fun o => o.map StageResult.time_ms) =
      l.map (fun o => (o.map StageResult.time_ms).getD 0) := by
  induction l with
  | nil => rfl
  | cons a rest ih =>
    have ha := hall a (by simp)
    cases a with
    | none => simp at ha
    | some x => simp [List.filterMap_cons, ih (fun o ho => hall o (by simp [ho]))]

/-- C8 counterexample: the claim states a driver with zero present outcomes
is reported separately and excluded from both ranked lists, but split_times
sends every non-full driver — a zero-outcome driver included — into the
ranked partial list: the driver anna with no outcome on the single stage
lands in the partial list with finished count 0. -/
theorem c8_counterexample :
    (split_times ⟨[⟨"anna", [none]⟩], []⟩).1 = [] ∧
    ((split_times ⟨[⟨"anna", [none]⟩], []⟩).2).map PartTime.user_name = ["anna"] ∧
    ((split_times ⟨[⟨"anna", [none]⟩], []⟩).2).map PartTime.finished_stages = [0] := by
  decide

/-- C8 (amended): a driver with outcomes on every stage becomes a FullTime
whose total time is the sum of all its stage times; every other driver —
a zero-outcome driver included, no one is reported separately — becomes a
PartTime whose total time is the sum of the present times and whose
finished count is the number of present outcomes. -/
theorem c8_amended (rally : RallyResults) (d : DriverResult)
    (hd : d ∈ rally.driver_results) :
    (finishedCount d = d.stages.length →
      ∃ ft, ft ∈ (split_times rally).1 ∧ ft.user_name = d.name ∧
        ft.stage_times = d.stages.map (fun o => (o.map StageResult.time_ms).getD 0) ∧
        ft.total_time = ft.stage_times.sum) ∧
    (finishedCount d ≠ d.stages.length →
      ∃ pt, pt ∈ (split_times rally).2 ∧ pt.user_name = d.name ∧
        pt.total_time = (d.stages.filterMap (fun o => o.map StageResult.time_ms)).sum ∧
        pt.finished_stages = finishedCount d) := by
  constructor
  · intro hfull
    refine ⟨mkFullTime d, ?_, rfl, rfl, ?_⟩
    · unfold split_times
      rw [List.mem_insertionSort]
      exact splitLoop_mem_full rally.driver_results d hd hfull
    · show totalTime d = (d.stages.map (fun o => (o.map StageResult.time_ms).getD 0)).sum
      unfold totalTime
      rw [filterMap_eq_map_of_all_some d.stages (all_some_of_finishedCount d hfull)]
  · intro hne
    refine ⟨mkPartTime d, ?_, rfl, rfl, rfl⟩
    unfold split_times
    rw [List.mem_insertionSort]
    exact splitLoop_mem_part rally.driver_results d hd hne

/-- C8 witness: a rally with one full driver flo (stage time 200) and one
partial driver par (one of two stages, time 300): flo lands in the full
list with total 200, par in the partial list with total 300 and finished
count 1. -/
theorem c8_witness :
    (⟨"flo", [some ⟨1, 200, 1, none⟩]⟩ : DriverResult) ∈
      (⟨[⟨"flo", [some ⟨1, 200, 1, none⟩]⟩], []⟩ : RallyResults).driver_results ∧
    (∃ ft, ft ∈ (split_times ⟨[⟨"flo", [some ⟨1, 200, 1, none⟩]⟩], []⟩).1 ∧
      ft.user_name = "flo" ∧
      ft.stage_times = ([some ⟨1, 200, 1, none⟩] : List (Option StageResult)).map
        (fun o => (o.map StageResult.time_ms).getD 0) ∧
      ft.total_time = ft.stage_times.sum) ∧
    (∃ pt, pt ∈ (split_times ⟨[⟨"par", [some ⟨2, 300, 1, none⟩, none]⟩], []⟩).2 ∧
      pt.user_name = "par" ∧
      pt.total_time = (([some ⟨2, 300, 1, none⟩, none] : List (Option StageResult)).filterMap
        (fun o => o.map StageResult.time_ms)).sum ∧
      pt.finished_stages = finishedCount ⟨"par", [some ⟨2, 300, 1, none⟩, none]⟩) :=
  ⟨by decide,
    (c8_amended ⟨[⟨"flo", [some ⟨1, 200, 1, none⟩]⟩], []⟩
      ⟨"flo", [some ⟨1, 200, 1, none⟩]⟩ (by decide)).1 (by decide),
    (c8_amended ⟨[⟨"par", [some ⟨2, 300, 1, none⟩, none]⟩], []⟩
      ⟨"par", [some ⟨2, 300, 1, none⟩, none]⟩ (by decide)).2 (by decide)⟩

/-! ## Part 4: the snapshot diff engine, report of src/main.rs

The Row enum of src/main.rs carries the change events.  report builds, per
rally, one overall row list and one row list per stage, then
sort_and_activate_rows post-processes every list. -/

/-- The Row enum of src/main.rs (lines 52-94). -/
inductive Row where
  | FirstTime : Nat → String → Nat → Row
  | TimeImprovedRankIncreased : Nat → String → Nat → Nat → Row
  | TimeImproved : Nat → String → Nat → Nat → Row
  | TimeImprovedRankDecreased : Nat → String → Nat → Nat → Row
  | RankDecreased : Nat → String → Nat → Row
  | Unchanged : Bool → Nat → String → Nat → Row
deriving DecidableEq

/-- Row::rank (lines 97-106).  Every variant stores rank first, with
Unchanged storing the active flag before it. -/
def Row.rank : Row → Nat
  | .FirstTime rank _ _ => rank
  | .TimeImprovedRankIncreased rank _ _ _ => rank
  | .TimeImproved rank _ _ _ => rank
  | .TimeImprovedRankDecreased rank _ _ _ => rank
  | .RankDecreased rank _ _ => rank
  | .Unchanged _ rank _ _ => rank

/-- Row::is_unchanged (lines 119-121). -/
def Row.isUnchanged : Row → Bool
  | .Unchanged _ _ _ _ => true
  | _ => false

/-- Setting the active flag of an Unchanged row (the write on line 458);
any other row is left as it is. -/
def Row.setActive : Row → Row
  | .Unchanged _ rank name time => .Unchanged true rank name time
  | r => r

/-- Whether Row::message (lines 123-198) produces output: every variant
yields a line except an Unchanged row whose active flag is false. -/
def Row.emits : Row → Bool
  | .Unchanged active _ _ _ => active
  | _ => true

/-- An Unchanged row with the active flag already set, which only
post-processing creates. -/
def Row.isActiveUnchanged : Row → Bool
  | .Unchanged active _ _ _ => active
  | _ => false

/-- Rows as report constructs them: any Unchanged row still has its active
flag false (lines 382-387 and 438-443 always pass active: false). -/
def inactiveIfUnchanged : Row → Bool
  | .Unchanged active _ _ _ => !active
  | _ => true

/-- The stage-row classification chain of report (lines 334-388), given the
current (time, rank) of the driver on the stage and the previous stage
result when one exists.  The booleans time_increased, rank_increased,
rank_same, rank_decreased of the source are inlined: with a previous result
p they are time < p.time, rank < p.rank, rank = p.rank, rank > p.rank. -/
def mkStageRow (name : String) (cur : StageResult) (prev : Option StageResult) : Row :=
  match prev with
  | none => Row.FirstTime cur.local_rank name cur.time_ms
  | some p =>
    if cur.time_ms < p.time_ms ∧ cur.local_rank < p.local_rank then
      Row.TimeImprovedRankIncreased cur.local_rank name cur.time_ms p.time_ms
    else if cur.time_ms < p.time_ms ∧ cur.local_rank = p.local_rank then
      Row.TimeImproved cur.local_rank name cur.time_ms p.time_ms
    else if cur.time_ms < p.time_ms ∧ p.local_rank < cur.local_rank then
      Row.TimeImprovedRankDecreased cur.local_rank name cur.time_ms p.time_ms
    else if p.local_rank < cur.local_rank then
      Row.RankDecreased cur.local_rank name cur.time_ms
    else
      Row.Unchanged false cur.local_rank name cur.time_ms

/-- Lines 304-311 of report: look up the previous results of the rally with
the same title, first match wins.  The previous snapshot is modelled as the
(title, results) pairs of the zip of prev.rallys with prev.results. -/
def findPrevResults (prevDb : Option (List (String × RallyResults))) (title : String) :
    Option RallyResults :=
  prevDb.bind (fun l => l.findSome? (fun p => if p.1 = title then some p.2 else none))

/-- Lines 326-330: find the stage array of the driver with the same name in
the previous results, first match wins. -/
def prevDriverStages (r : RallyResults) (name : String) : Option (List (Option StageResult)) :=
  r.driver_results.findSome? (fun d => if d.name = name then some d.stages else none)

/-- The indexing step of the previous-entry lookup (line 331 of report):
stages[stage_idx].as_ref() on the stage array of the matched previous
driver.  The source indexes the array, which panics (modelled none) when
the previous stage array is shorter than the current stage index; with no
matched previous driver the previous entry is simply absent. -/
def stageRowAux (prevStages : Option (List (Option StageResult))) (name : String)
    (cur : StageResult) (stageIdx : Nat) : Option Row :=
  match prevStages with
  | none => some (mkStageRow name cur none)
  | some stages =>
    if h : stageIdx < stages.length then some (mkStageRow name cur (stages.get ⟨stageIdx, h⟩))
    else none

/-- The full stage-row computation of report for one driver and one stage
with a present current result (lines 324-388). -/
def stageRowFull (prevDb : Option (List (String × RallyResults))) (title name : String)
    (stageIdx : Nat) (cur : StageResult) : Option Row :=
  stageRowAux ((findPrevResults prevDb title).bind (fun r => prevDriverStages r name))
    name cur stageIdx

theorem stageRowAux_none (name : String) (cur : StageResult) (stageIdx : Nat) :
    stageRowAux none name cur stageIdx = some (mkStageRow name cur none) := rfl

theorem stageRowAux_some (stages : List (Option StageResult)) (name : String)
    (cur : StageResult) (stageIdx : Nat) :
    stageRowAux (some stages) name cur stageIdx =
      if h : stageIdx < stages.length then some (mkStageRow name cur (stages.get ⟨stageIdx, h⟩))
      else none := rfl

/-- The fields of a full-time row that the rally-total diff of report reads
(lines 390-446): user_name, total_time and total_local_rank.  src/main.rs
reads ft.total_local_rank, a field absent from the FullTime struct of
src/lib.rs (the two files reference different revisions of the struct); the
rank is therefore carried as given data here. -/
structure TotalEntry where
  user_name : String
  total_time : Nat
  total_local_rank : Nat
deriving DecidableEq

/-- The rally-total classification chain of report (lines 405-444), for a
driver full both previously and currently. -/
def mkTotalRow (ft pft : TotalEntry) : Row :=
  if ft.total_time < pft.total_time ∧ ft.total_local_rank < pft.total_local_rank then
    Row.TimeImprovedRankIncreased ft.total_local_rank ft.user_name ft.total_time pft.total_time
  else if ft.total_time < pft.total_time ∧ ft.total_local_rank = pft.total_local_rank then
    Row.TimeImproved ft.total_local_rank ft.user_name ft.total_time pft.total_time
  else if ft.total_time < pft.total_time ∧ pft.total_local_rank < ft.total_local_rank then
    Row.TimeImprovedRankDecreased ft.total_local_rank ft.user_name ft.total_time pft.total_time
  else if pft.total_local_rank < ft.total_local_rank then
    Row.RankDecreased ft.total_local_rank ft.user_name ft.total_time
  else
    Row.Unchanged false ft.total_local_rank ft.user_name ft.total_time

/-- The rally-total row of report for one driver (lines 397-446), from the
previous and current full-time entries of that driver: no row when full in
neither, panic (modelled outer none) when previously full but not full now
(the panic on line 399), FirstTime when newly full, and the classification
chain when full in both. -/
def totalRowFor : Option TotalEntry → Option TotalEntry → Option (Option Row)
  | none, none => some none
  | some _, none => none
  | none, some ft =>
    some (some (Row.FirstTime ft.total_local_rank ft.user_name ft.total_time))
  | some pft, some ft => some (some (mkTotalRow ft pft))

/-- The rally-total row of report for one driver including its lookups
(lines 390-397): prevFts stands for prev_full_times, the full times of the
previous results of the rally matched by title (line 391, the same
title-match as findPrevResults feeding the stage path), and curFts for the
full times of the current results (line 395); on each side the entry of the
driver is found by user_name equality (lines 393-394 and 396), first match
wins, and the pair is classified by totalRowFor. -/
def totalRowLookup (prevFts : Option (List TotalEntry)) (curFts : List TotalEntry)
    (name : String) : Option (Option Row) :=
  totalRowFor (prevFts.bind (fun fts => fts.find? (fun ft => ft.user_name == name)))
    (curFts.find? (fun ft => ft.user_name == name))

/-- sort_and_activate_rows of report (lines 450-461) splits into the stable
sort by rank and the activation pass; on an empty list the source computes
rows.len() - 1 on a usize, which panics (modelled none). -/
def activateLoop : List Row → List Row
  | [] => []
  | [r] => [r]
  | r :: r2 :: rest =>
    (if Row.isUnchanged r = true ∧ Row.isUnchanged r2 = false then Row.setActive r else r) ::
      activateLoop (r2 :: rest)

/-- sort_and_activate_rows of report (lines 450-461). -/
def sortAndActivateRows (rows : List Row) : Option (List Row) :=
  if rows.isEmpty then none
  else some (activateLoop (List.insertionSort (fun a b => Row.rank a ≤ Row.rank b) rows))

/-- Claim-side previous-entry lookup, written from the claim text: match the
rally by title, then the driver by identity, then the stage by position
(out-of-range meaning no previous entry). -/
def specPrevStage (prevDb : Option (List (String × RallyResults))) (title name : String)
    (stageIdx : Nat) : Option StageResult :=
  ((findPrevResults prevDb title).bind (fun r => prevDriverStages r name)).bind
    (fun stages => stages.getD stageIdx none)

/-- Claim-side classification, written from the claim text: NewEntrant with
no previous entry; ImprovedTimeRankUp when time < prev_time and
rank < prev_rank; ImprovedTimeRankSame when time < prev_time and
rank = prev_rank; ImprovedTimeRankDown when time < prev_time and
rank > prev_rank; RankDown when the time did not improve and
rank > prev_rank; Unchanged in every other case. -/
def specStageRow (name : String) (cur : StageResult) (prev : Option StageResult) : Row :=
  match prev with
  | none => Row.FirstTime cur.local_rank name cur.time_ms
  | some p =>
    if cur.time_ms < p.time_ms ∧ cur.local_rank < p.local_rank then
      Row.TimeImprovedRankIncreased cur.local_rank name cur.time_ms p.time_ms
    else if cur.time_ms < p.time_ms ∧ cur.local_rank = p.local_rank then
      Row.TimeImproved cur.local_rank name cur.time_ms p.time_ms
    else if cur.time_ms < p.time_ms ∧ p.local_rank < cur.local_rank then
      Row.TimeImprovedRankDecreased cur.local_rank name cur.time_ms p.time_ms
    else if ¬ (cur.time_ms < p.time_ms) ∧ p.local_rank < cur.local_rank then
      Row.RankDecreased cur.local_rank name cur.time_ms
    else
      Row.Unchanged false cur.local_rank name cur.time_ms

/-- Claim-side rally-total classification, same conditions over the total
times and total ranks. -/
def specTotalRow (ft pft : TotalEntry) : Row :=
  if ft.total_time < pft.total_time ∧ ft.total_local_rank < pft.total_local_rank then
    Row.TimeImprovedRankIncreased ft.total_local_rank ft.user_name ft.total_time pft.total_time
  else if ft.total_time < pft.total_time ∧ ft.total_local_rank = pft.total_local_rank then
    Row.TimeImproved ft.total_local_rank ft.user_name ft.total_time pft.total_time
  else if ft.total_time < pft.total_time ∧ pft.total_local_rank < ft.total_local_rank then
    Row.TimeImprovedRankDecreased ft.total_local_rank ft.user_name ft.total_time pft.total_time
  else if ¬ (ft.total_time < pft.total_time) ∧ pft.total_local_rank < ft.total_local_rank then
    Row.RankDecreased ft.total_local_rank ft.user_name ft.total_time
  else
    Row.Unchanged false ft.total_local_rank ft.user_name ft.total_time

/-- Claim-side rally-total classification with the no-previous-entry case:
NewEntrant (the FirstTime row with the current total rank and total time)
when the driver has no previous rally-total entry, and the six-way
classification otherwise. -/
def specTotalRowFull (ft : TotalEntry) : Option TotalEntry → Row
  | none => Row.FirstTime ft.total_local_rank ft.user_name ft.total_time
  | some pft => specTotalRow ft pft

theorem mkStageRow_eq_spec (name : String) (cur : StageResult) (prev : Option StageResult) :
    mkStageRow name cur prev = specStageRow name cur prev := by
  cases prev with
  | none => rfl
  | some p =>
    simp only [mkStageRow, specStageRow]
    split_ifs <;> first | rfl | omega

theorem mkTotalRow_eq_spec (ft pft : TotalEntry) : mkTotalRow ft pft = specTotalRow ft pft := by
  simp only [mkTotalRow, specTotalRow]
  split_ifs <;> first | rfl | omega

/-- C2: for every driver with a current result on a stage, the stage row of
the diff engine is exactly the claim-side classification of the current
(time, rank) against the previous entry found by matching rally by title,
then driver by identity, then stage by position; for every driver full in
both snapshots, the rally-total row is the same classification over total
times and total ranks; and for every driver with a current rally-total
entry, the rally-total row — with the previous entry found among the full
times of the title-matched previous results by driver identity — is the
claim-side classification including NewEntrant when there is no previous
rally-total entry. -/
theorem c2_classification :
    (∀ (prevDb : Option (List (String × RallyResults))) (title name : String)
        (stageIdx : Nat) (cur : StageResult) (row : Row),
      stageRowFull prevDb title name stageIdx cur = some row →
        row = specStageRow name cur (specPrevStage prevDb title name stageIdx)) ∧
    (∀ pft ft : TotalEntry,
      totalRowFor (some pft) (some ft) = some (some (specTotalRow ft pft))) ∧
    (∀ (prevFts : Option (List TotalEntry)) (curFts : List TotalEntry)
        (name : String) (ft : TotalEntry),
      curFts.find? (fun x => x.user_name == name) = some ft →
        totalRowLookup prevFts curFts name =
          some (some (specTotalRowFull ft
            (prevFts.bind (fun fts => fts.find? (fun x => x.user_name == name)))))) := by
  refine ⟨?_, ?_, ?_⟩
  · intro prevDb title name stageIdx cur row h
    unfold stageRowFull at h
    unfold specPrevStage
    cases hps : (findPrevResults prevDb title).bind (fun r => prevDriverStages r name) with
    | none =>
      rw [hps, stageRowAux_none] at h
      simp only [Option.some.injEq] at h
      rw [← h, Option.none_bind, mkStageRow_eq_spec]
    | some stages =>
      rw [hps, stageRowAux_some] at h
      by_cases hlt : stageIdx < stages.length
      · rw [dif_pos hlt] at h
        simp only [Option.some.injEq] at h
        rw [← h, Option.some_bind, List.getD_eq_getElem stages none hlt,
          mkStageRow_eq_spec]
        rfl
      · rw [dif_neg hlt] at h
        exact absurd h (by simp)
  · intro pft ft
    show some (some (mkTotalRow ft pft)) = some (some (specTotalRow ft pft))
    rw [mkTotalRow_eq_spec]
  · intro prevFts curFts name ft hcur
    unfold totalRowLookup
    rw [hcur]
    cases hp : prevFts.bind (fun fts => fts.find? (fun x => x.user_name == name)) with
    | none => rfl
    | some pft =>
      show some (some (mkTotalRow ft pft)) = some (some (specTotalRow ft pft))
      rw [mkTotalRow_eq_spec]

/-- C2 witness: the stage part uses the specification test vector — driver
dana, previous (time 120000, rank 3), current (time 110000, rank 2) on
stage 0 of rally kenya — classified as an improved time with rank up,
previous time 120000; the rally-total part uses driver ines, newly full
with total 500000 at total rank 2 while the previous full times hold no
entry for her, classified as a first-time (NewEntrant) rally-total row. -/
theorem c2_witness :
    (stageRowFull (some [("kenya", ⟨[⟨"dana", [some ⟨0, 120000, 3, none⟩]⟩], []⟩)])
        "kenya" "dana" 0 ⟨0, 110000, 2, none⟩ =
      some (Row.TimeImprovedRankIncreased 2 "dana" 110000 120000) ∧
    Row.TimeImprovedRankIncreased 2 "dana" 110000 120000 =
      specStageRow "dana" ⟨0, 110000, 2, none⟩
        (specPrevStage (some [("kenya", ⟨[⟨"dana", [some ⟨0, 120000, 3, none⟩]⟩], []⟩)])
          "kenya" "dana" 0)) ∧
    (([(⟨"ines", 500000, 2⟩ : TotalEntry)].find? (fun x => x.user_name == "ines") =
      some ⟨"ines", 500000, 2⟩) ∧
    totalRowLookup (some [⟨"hugo", 400000, 1⟩]) [⟨"ines", 500000, 2⟩] "ines" =
      some (some (specTotalRowFull ⟨"ines", 500000, 2⟩
        ((some [(⟨"hugo", 400000, 1⟩ : TotalEntry)]).bind
          (fun fts => fts.find? (fun x => x.user_name == "ines")))))) :=
  ⟨⟨by decide,
    c2_classification.1 (some [("kenya", ⟨[⟨"dana", [some ⟨0, 120000, 3, none⟩]⟩], []⟩)])
      "kenya" "dana" 0 ⟨0, 110000, 2, none⟩
      (Row.TimeImprovedRankIncreased 2 "dana" 110000 120000) (by decide)⟩,
   ⟨by decide,
    c2_classification.2.2 (some [⟨"hugo", 400000, 1⟩]) [⟨"ines", 500000, 2⟩] "ines"
      ⟨"ines", 500000, 2⟩ (by decide)⟩⟩

/-- C4 counterexample: the claim states the diff engine produces its events
for every pair of current results and previous snapshot without panicking,
but report panics (line 399, modelled none) for a driver who was a full
result in the previous snapshot and is not a full result now. -/
theorem c4_counterexample : totalRowFor (some ⟨"ada", 100, 1⟩) none = none := rfl

/-- C4 (amended): the diff engine is total except in precisely three cases,
each a panic: a driver previously full but not currently full, the
post-processing of an empty event list, and a previous stage array shorter
than the current stage index.  In every other case each comparison has its
defined fallback: in particular a missing previous entry yields the
first-time (NewEntrant) event. -/
theorem c4_amended :
    (∀ pft ft : Option TotalEntry,
      totalRowFor pft ft = none ↔ (pft.isSome = true ∧ ft = none)) ∧
    (∀ rows : List Row, sortAndActivateRows rows = none ↔ rows = []) ∧
    (∀ (prevDb : Option (List (String × RallyResults))) (title name : String)
        (stageIdx : Nat) (cur : StageResult),
      stageRowFull prevDb title name stageIdx cur = none ↔
        ∃ stages, (findPrevResults prevDb title).bind (fun r => prevDriverStages r name) =
          some stages ∧ stages.length ≤ stageIdx) := by
  refine ⟨?_, ?_, ?_⟩
  · intro pft ft
    cases pft <;> cases ft <;> simp [totalRowFor]
  · intro rows
    cases rows <;> simp [sortAndActivateRows]
  · intro prevDb title name stageIdx cur
    unfold stageRowFull
    cases hps : (findPrevResults prevDb title).bind (fun r => prevDriverStages r name) with
    | none => rw [stageRowAux_none]; simp
    | some stages =>
      rw [stageRowAux_some]
      by_cases hlt : stageIdx < stages.length
      · rw [dif_pos hlt]
        constructor
        · intro hc; exact absurd hc (by simp)
        · rintro ⟨st, hst, hle⟩
          rw [← Option.some.inj hst] at hle
          exact absurd hle (by omega)
      · rw [dif_neg hlt]
        simp only [true_iff]
        exact ⟨stages, rfl, by omega⟩

/-- Default row used only to state positional lookups with getD. -/
def dfltRow : Row := Row.FirstTime 0 "" 0

theorem setActive_rank (r : Row) : (Row.setActive r).rank = r.rank := by
  cases r <;> rfl

theorem setActive_isUnchanged (r : Row) : (Row.setActive r).isUnchanged = r.isUnchanged := by
  cases r <;> rfl

theorem isActiveUnchanged_setActive (r : Row) :
    (Row.setActive r).isActiveUnchanged = r.isUnchanged := by
  cases r <;> rfl

theorem isActiveUnchanged_false_of_inactive (r : Row) (h : inactiveIfUnchanged r = true) :
    r.isActiveUnchanged = false := by
  cases r with
  | Unchanged active rank name time =>
    simp [inactiveIfUnchanged] at h
    simp [Row.isActiveUnchanged, h]
  | FirstTime rank name time => rfl
  | TimeImprovedRankIncreased rank name time prev => rfl
  | TimeImproved rank name time prev => rfl
  | TimeImprovedRankDecreased rank name time prev => rfl
  | RankDecreased rank name time => rfl

theorem emits_false_of_inactive (r : Row) (h1 : r.isUnchanged = true)
    (h2 : inactiveIfUnchanged r = true) : r.emits = false := by
  cases r with
  | Unchanged active rank name time =>
    simp [inactiveIfUnchanged] at h2
    simp [Row.emits, h2]
  | FirstTime rank name time => simp [Row.isUnchanged] at h1
  | TimeImprovedRankIncreased rank name time prev => simp [Row.isUnchanged] at h1
  | TimeImproved rank name time prev => simp [Row.isUnchanged] at h1
  | TimeImprovedRankDecreased rank name time prev => simp [Row.isUnchanged] at h1
  | RankDecreased rank name time => simp [Row.isUnchanged] at h1

theorem activateLoop_length : ∀ l : List Row, (activateLoop l).length = l.length := by
  intro l
  induction l with
  | nil => rfl
  | cons r tail ih =>
    cases tail with
    | nil => rfl
    | cons r2 rest => simp [activateLoop] at ih ⊢; omega

theorem activateLoop_map_rank : ∀ l : List Row,
    (activateLoop l).map Row.rank = l.map Row.rank := by
  intro l
  induction l with
  | nil => rfl
  | cons r tail ih =>
    cases tail with
    | nil => rfl
    | cons r2 rest =>
      simp only [activateLoop, List.map_cons] at ih ⊢
      rw [ih]
      by_cases hc : Row.isUnchanged r = true ∧ Row.isUnchanged r2 = false
      · rw [if_pos hc, setActive_rank]
      · rw [if_neg hc]

theorem activateLoop_getD : ∀ (l : List Row) (i : Nat),
    (activateLoop l).getD i dfltRow =
      if (l.getD i dfltRow).isUnchanged = true ∧ i + 1 < l.length ∧
          (l.getD (i + 1) dfltRow).isUnchanged = false
      then Row.setActive (l.getD i dfltRow) else l.getD i dfltRow := by
  intro l
  induction l with
  | nil =>
    intro i
    simp [activateLoop, dfltRow, Row.isUnchanged]
  | cons r tail ih =>
    intro i
    cases tail with
    | nil =>
      cases i with
      | zero => simp [activateLoop]
      | succ j => simp [activateLoop, dfltRow, Row.isUnchanged]
    | cons r2 rest =>
      cases i with
      | zero =>
        simp only [activateLoop, List.getD_cons_zero, List.getD_cons_succ, List.length_cons]
        by_cases hc : Row.isUnchanged r = true ∧ Row.isUnchanged r2 = false
        · rw [if_pos hc, if_pos ⟨hc.1, by omega, hc.2⟩]
        · rw [if_neg hc, if_neg (fun hh => hc ⟨hh.1, hh.2.2⟩)]
      | succ j =>
        simp only [activateLoop, List.getD_cons_succ]
        rw [ih j]
        apply if_congr _ rfl rfl
        constructor
        · rintro ⟨a, b, c⟩
          exact ⟨a, by simp only [List.length_cons] at b ⊢; omega, c⟩
        · rintro ⟨a, b, c⟩
          exact ⟨a, by simp only [List.length_cons] at b ⊢; omega, c⟩

theorem isUnchanged_activateLoop_getD (l : List Row) (j : Nat) :
    ((activateLoop l).getD j dfltRow).isUnchanged = (l.getD j dfltRow).isUnchanged := by
  rw [activateLoop_getD l j]
  by_cases hc : (l.getD j dfltRow).isUnchanged = true ∧ j + 1 < l.length ∧
      (l.getD (j + 1) dfltRow).isUnchanged = false
  · rw [if_pos hc, setActive_isUnchanged]
  · rw [if_neg hc]

theorem activateLoop_all_unchanged : ∀ l : List Row,
    (∀ r ∈ l, r.isUnchanged = true) → activateLoop l = l := by
  intro l
  induction l with
  | nil => intro h; rfl
  | cons r tail ih =>
    intro h
    cases tail with
    | nil => rfl
    | cons r2 rest =>
      have h2 : Row.isUnchanged r2 = true := h r2 (by simp)
      simp only [activateLoop]
      rw [if_neg (fun hc => by rw [h2] at hc; exact absurd hc.2 (by simp)),
        ih (fun x hx => h x (List.mem_cons_of_mem r hx))]

/-- C9 counterexample: the claim quantifies over every per-stage and
per-rally event list, but post-processing panics on the empty list: the
source computes rows.len() - 1 on a usize, which underflows (modelled
none).  An empty rally-level list is reachable: a rally whose drivers all
have partial results produces stage rows but no rally row. -/
theorem c9_counterexample : sortAndActivateRows [] = none := rfl

/-- C9 (amended): for every nonempty per-stage or per-rally change-event
list (whose Unchanged events, as report builds them, are still inactive),
post-processing sorts the events ascending by current rank and marks an
Unchanged event visible if and only if it immediately precedes, in rank
order, a non-Unchanged event; every other Unchanged event emits no output,
and a scope whose events are all Unchanged emits no output at all. -/
theorem c9_amended (rows : List Row) (hne : rows ≠ [])
    (hin : ∀ r ∈ rows, inactiveIfUnchanged r = true) :
    ∃ out, sortAndActivateRows rows = some out ∧
      out.Pairwise (fun a b => Row.rank a ≤ Row.rank b) ∧
      (∀ i, i < out.length →
        ((out.getD i dfltRow).isActiveUnchanged = true ↔
          ((out.getD i dfltRow).isUnchanged = true ∧ i + 1 < out.length ∧
            (out.getD (i + 1) dfltRow).isUnchanged = false))) ∧
      (∀ r ∈ out, r.isUnchanged = true → r.emits = r.isActiveUnchanged) ∧
      ((∀ r ∈ rows, r.isUnchanged = true) → ∀ r ∈ out, r.emits = false) := by
  have hne2 : rows.isEmpty = false := by
    cases rows with
    | nil => exact absurd rfl hne
    | cons a t => rfl
  have hsrtin : ∀ x ∈ List.insertionSort (fun a b => Row.rank a ≤ Row.rank b) rows,
      inactiveIfUnchanged x = true :=
    fun x hx => hin x ((List.perm_insertionSort _ rows).mem_iff.mp hx)
  refine ⟨activateLoop (List.insertionSort (fun a b => Row.rank a ≤ Row.rank b) rows),
    ?_, ?_, ?_, ?_, ?_⟩
  · unfold sortAndActivateRows
    rw [hne2]
    rfl
  · haveI : IsTotal Row (fun a b => Row.rank a ≤ Row.rank b) := ⟨fun a b => Nat.le_total _ _⟩
    haveI : IsTrans Row (fun a b => Row.rank a ≤ Row.rank b) :=
      ⟨fun a b c hab hbc => Nat.le_trans hab hbc⟩
    have hs : (List.insertionSort (fun a b => Row.rank a ≤ Row.rank b) rows).Pairwise
        (fun a b => Row.rank a ≤ Row.rank b) := List.sorted_insertionSort _ rows
    have h1 : ((List.insertionSort (fun a b => Row.rank a ≤ Row.rank b) rows).map
        Row.rank).Pairwise (fun a b : Nat => a ≤ b) := List.pairwise_map.mpr hs
    rw [← activateLoop_map_rank] at h1
    exact List.pairwise_map.mp h1
  · intro i hi
    rw [activateLoop_length] at hi
    have hmem : (List.insertionSort (fun a b => Row.rank a ≤ Row.rank b) rows).getD i dfltRow ∈
        List.insertionSort (fun a b => Row.rank a ≤ Row.rank b) rows := by
      rw [List.getD_eq_getElem _ _ hi]
      exact List.getElem_mem hi
    have hinact := hsrtin _ hmem
    rw [isUnchanged_activateLoop_getD, isUnchanged_activateLoop_getD, activateLoop_length,
      activateLoop_getD]
    by_cases hc : ((List.insertionSort (fun a b => Row.rank a ≤ Row.rank b) rows).getD i
          dfltRow).isUnchanged = true ∧
        i + 1 < (List.insertionSort (fun a b => Row.rank a ≤ Row.rank b) rows).length ∧
        ((List.insertionSort (fun a b => Row.rank a ≤ Row.rank b) rows).getD (i + 1)
          dfltRow).isUnchanged = false
    · rw [if_pos hc, isActiveUnchanged_setActive]
      constructor
      · intro _
        exact hc
      · intro hh
        exact hh.1
    · rw [if_neg hc, isActiveUnchanged_false_of_inactive _ hinact]
      constructor
      · intro hfalse; exact absurd hfalse (by simp)
      · rintro ⟨a, b, c⟩
        exact absurd ⟨a, b, c⟩ hc
  · intro r hr hu
    cases r with
    | Unchanged active rank name time => rfl
    | FirstTime rank name time => simp [Row.isUnchanged] at hu
    | TimeImprovedRankIncreased rank name time prev => simp [Row.isUnchanged] at hu
    | TimeImproved rank name time prev => simp [Row.isUnchanged] at hu
    | TimeImprovedRankDecreased rank name time prev => simp [Row.isUnchanged] at hu
    | RankDecreased rank name time => simp [Row.isUnchanged] at hu
  · intro hall r hr
    have hsall : ∀ x ∈ List.insertionSort (fun a b => Row.rank a ≤ Row.rank b) rows,
        x.isUnchanged = true :=
      fun x hx => hall x ((List.perm_insertionSort _ rows).mem_iff.mp hx)
    rw [activateLoop_all_unchanged _ hsall] at hr
    exact emits_false_of_inactive r (hsall r hr) (hsrtin r hr)

/-- C9 witness: two events — an inactive Unchanged row at rank 1 and a
first-time row at rank 2 — post-process into a sorted list where the
Unchanged row immediately precedes the changed row and is therefore marked
visible. -/
theorem c9_witness :
    (([Row.Unchanged false 1 "a" 10, Row.FirstTime 2 "b" 20] : List Row) ≠ []) ∧
    (∀ r ∈ ([Row.Unchanged false 1 "a" 10, Row.FirstTime 2 "b" 20] : List Row),
      inactiveIfUnchanged r = true) ∧
    (∃ out, sortAndActivateRows [Row.Unchanged false 1 "a" 10, Row.FirstTime 2 "b" 20] =
        some out ∧
      out.Pairwise (fun a b => Row.rank a ≤ Row.rank b) ∧
      (∀ i, i < out.length →
        ((out.getD i dfltRow).isActiveUnchanged = true ↔
          ((out.getD i dfltRow).isUnchanged = true ∧ i + 1 < out.length ∧
            (out.getD (i + 1) dfltRow).isUnchanged = false))) ∧
      (∀ r ∈ out, r.isUnchanged = true → r.emits = r.isActiveUnchanged) ∧
      ((∀ r ∈ ([Row.Unchanged false 1 "a" 10, Row.FirstTime 2 "b" 20] : List Row),
          r.isUnchanged = true) → ∀ r ∈ out, r.emits = false)) :=
  ⟨by decide, by decide,
    c9_amended [Row.Unchanged false 1 "a" 10, Row.FirstTime 2 "b" 20] (by decide) (by decide)⟩

end AoR
